/-
Verification of the ZotWatch incremental embedding index and multi-factor
ranking engine against its design specification.

The development shallowly embeds the relevant Python modules:
  * `zotwatch/infrastructure/storage/sqlite.py` (ProfileStorage item table)
  * `zotwatch/utils/hashing.py` (hash_content / SHA-256)
  * `zotwatch/pipeline/score.py` (WorkRanker.rank and component scores)
  * `zotwatch/pipeline/profile_ranker.py` (ProfileRanker.rank)
  * `zotwatch/cli/main.py` (_limit_preprints post filter)

Numeric conventions: Python floats are idealised as rationals (ℚ); SQLite
timestamps are naturals; machine-word arithmetic in SHA-256 is Nat with
explicit reduction mod 2^32.  External collaborators (the FAISS index, the
embedding provider, the journal scorer, the clock) are passed in as explicit
arguments, exactly at the boundaries where the source code calls them.
-/

import Mathlib

namespace ZotWatch

/-! ## Item store (sqlite.py)

The `items` table of `ProfileStorage`.  A database is the list of its rows
in insertion order.  JSON serialisation of list-valued columns
(`json.dumps`/`json.loads` round trip) is modelled as the identity, so the
columns keep their Lean types.  `updated_at` (`CURRENT_TIMESTAMP`) is an
explicit argument of every mutating operation. -/

/-- Modelled from the spec: `zotwatch.core.models.ZoteroItem` is not under
`src/`; its fields are taken from §3 LibraryItem of the design document and
from the columns written by `ProfileStorage.upsert_item`. -/
structure ZoteroItem where
  key : String
  version : Int
  title : String
  abstract : Option String
  creators : List String
  tags : List String
  collections : List String
  year : Option Int
  doi : Option String
  url : Option String
  raw : String
  content_hash : Option String := none
  deriving Repr, DecidableEq

/-- One row of the `items` table (schema in sqlite.py). -/
structure ItemRow where
  key : String
  version : Int
  title : String
  abstract : Option String
  creators : List String
  tags : List String
  collections : List String
  year : Option Int
  doi : Option String
  url : Option String
  raw_json : String
  content_hash : Option String
  embedding : Option (List Nat)
  embedding_hash : Option String
  updated_at : Nat
  deriving Repr, DecidableEq

/-- The `items` table: rows in insertion order. -/
abbrev ItemTable := List ItemRow

/-- `ProfileStorage.upsert_item`: `INSERT ... ON CONFLICT(key) DO UPDATE` —
when a row with the key exists, every metadata column and `content_hash`
are overwritten and `updated_at` is refreshed, while `embedding` and
`embedding_hash` are untouched; otherwise a fresh row is appended with
NULL embedding columns. -/
def upsert_item (db : ItemTable) (item : ZoteroItem) (content_hash : Option String)
    (now : Nat) : ItemTable :=
  if db.any (fun r => r.key == item.key) then
    db.map (fun r =>
      if r.key == item.key then
        { r with
          version := item.version
          title := item.title
          abstract := item.abstract
          creators := item.creators
          tags := item.tags
          collections := item.collections
          year := item.year
          doi := item.doi
          url := item.url
          raw_json := item.raw
          content_hash := content_hash
          updated_at := now }
      else r)
  else
    db ++ [{ key := item.key
             version := item.version
             title := item.title
             abstract := item.abstract
             creators := item.creators
             tags := item.tags
             collections := item.collections
             year := item.year
             doi := item.doi
             url := item.url
             raw_json := item.raw
             content_hash := content_hash
             embedding := none
             embedding_hash := none
             updated_at := now }]

/-- `ProfileStorage.set_embedding`: `UPDATE items SET embedding = ?,
embedding_hash = ?, updated_at = CURRENT_TIMESTAMP WHERE key = ?`. -/
def set_embedding (db : ItemTable) (key : String) (vector : List Nat)
    (embedding_hash : Option String) (now : Nat) : ItemTable :=
  db.map (fun r =>
    if r.key == key then
      { r with
        embedding := some vector
        embedding_hash := embedding_hash
        updated_at := now }
    else r)

/-- `ProfileStorage.remove_items`: `DELETE FROM items WHERE key IN (...)`. -/
def remove_items (db : ItemTable) (keys : List String) : ItemTable :=
  if keys = [] then db else db.filter (fun r => !(keys.contains r.key))

/-- SQL three-valued `a != b`: true only when both operands are non-NULL
and differ (a NULL comparison is not satisfied by the WHERE clause). -/
def sqlNe (a b : Option String) : Bool :=
  match a, b with
  | some x, some y => x != y
  | _, _ => false

/-- The WHERE clause of `fetch_items_needing_embedding`:
`embedding IS NULL OR embedding_hash IS NULL OR embedding_hash != content_hash`. -/
def needsEmbedding (r : ItemRow) : Bool :=
  r.embedding.isNone || r.embedding_hash.isNone || sqlNe r.embedding_hash r.content_hash

/-- `_row_to_item`: projection of a row back to a `ZoteroItem`. -/
def rowToItem (r : ItemRow) : ZoteroItem :=
  { key := r.key
    version := r.version
    title := r.title
    abstract := r.abstract
    creators := r.creators
    tags := r.tags
    collections := r.collections
    year := r.year
    doi := r.doi
    url := r.url
    raw := r.raw_json
    content_hash := r.content_hash }

/-- `ProfileStorage.fetch_items_needing_embedding`: rows matching the
staleness clause, `ORDER BY updated_at ASC` (SQLite leaves equal keys in an
unspecified order; a stable sort is one admissible realisation). -/
def fetch_items_needing_embedding (db : ItemTable) : List ZoteroItem :=
  ((db.filter needsEmbedding).mergeSort
    (fun a b => a.updated_at ≤ b.updated_at)).map rowToItem

/-- Keys of the items currently reported as needing an embedding. -/
def staleKeys (db : ItemTable) : List String :=
  (fetch_items_needing_embedding db).map ZoteroItem.key

/-! ## Content hashing (utils/hashing.py)

`hash_content(*parts)` feeds the UTF-8 encoding of every truthy (non-empty)
part into one SHA-256 state and returns the hex digest.  `hashlib`'s
incremental `update` is contractually equivalent to hashing the
concatenation of all fed byte strings, so the model hashes the concatenated
bytes.  SHA-256 itself (FIPS 180-4) is implemented below on `Nat` words
reduced mod 2^32. -/

/-- UTF-8 encoding of a Unicode code point (as in `str.encode("utf-8")`). -/
def utf8Bytes (c : Nat) : List Nat :=
  if c < 0x80 then [c]
  else if c < 0x800 then [0xC0 + c / 64, 0x80 + c % 64]
  else if c < 0x10000 then
    [0xE0 + c / 4096, 0x80 + (c / 64) % 64, 0x80 + c % 64]
  else
    [0xF0 + c / 262144, 0x80 + (c / 4096) % 64, 0x80 + (c / 64) % 64, 0x80 + c % 64]

/-- Bytes of a string under UTF-8. -/
def strBytes (s : String) : List Nat :=
  s.data.flatMap (fun ch => utf8Bytes ch.toNat)

/-- 2^32, the word modulus of SHA-256. -/
def w32 : Nat := 4294967296

/-- Right rotation of a 32-bit word by `n` places. -/
def rotr (n x : Nat) : Nat := x / 2 ^ n + x % 2 ^ n * 2 ^ (32 - n)

/-- SHA-256 Ch function. -/
def shaCh (x y z : Nat) : Nat := Nat.xor (Nat.land x y) (Nat.land (Nat.xor x (w32 - 1)) z)

/-- SHA-256 Maj function. -/
def shaMaj (x y z : Nat) : Nat :=
  Nat.xor (Nat.land x y) (Nat.xor (Nat.land x z) (Nat.land y z))

/-- SHA-256 Σ₀. -/
def bigSigma0 (x : Nat) : Nat := Nat.xor (rotr 2 x) (Nat.xor (rotr 13 x) (rotr 22 x))

/-- SHA-256 Σ₁. -/
def bigSigma1 (x : Nat) : Nat := Nat.xor (rotr 6 x) (Nat.xor (rotr 11 x) (rotr 25 x))

/-- SHA-256 σ₀. -/
def smallSigma0 (x : Nat) : Nat := Nat.xor (rotr 7 x) (Nat.xor (rotr 18 x) (x / 2 ^ 3))

/-- SHA-256 σ₁. -/
def smallSigma1 (x : Nat) : Nat := Nat.xor (rotr 17 x) (Nat.xor (rotr 19 x) (x / 2 ^ 10))

/-- The 64 SHA-256 round constants (fractional parts of the cube roots of
the first 64 primes), written in decimal. -/
def shaK : List Nat :=
  [1116352408, 1899447441, 3049323471, 3921009573,
   961987163, 1508970993, 2453635748, 2870763221,
   3624381080, 310598401, 607225278, 1426881987,
   1925078388, 2162078206, 2614888103, 3248222580,
   3835390401, 4022224774, 264347078, 604807628,
   770255983, 1249150122, 1555081692, 1996064986,
   2554220882, 2821834349, 2952996808, 3210313671,
   3336571891, 3584528711, 113926993, 338241895,
   666307205, 773529912, 1294757372, 1396182291,
   1695183700, 1986661051, 2177026350, 2456956037,
   2730485921, 2820302411, 3259730800, 3345764771,
   3516065817, 3600352804, 4094571909, 275423344,
   430227734, 506948616, 659060556, 883997877,
   958139571, 1322822218, 1537002063, 1747873779,
   1955562222, 2024104815, 2227730452, 2361852424,
   2428436474, 2756734187, 3204031479, 3329325298]

/-- The initial SHA-256 hash state (fractional parts of the square roots
of the first 8 primes), in decimal. -/
def shaH0 : List Nat :=
  [1779033703, 3144134277, 1013904242, 2773480762,
   1359893119, 2600822924, 528734635, 1541459225]

/-- Big-endian 4-byte split of a 32-bit word. -/
def wordBytes (x : Nat) : List Nat :=
  [x / 16777216 % 256, x / 65536 % 256, x / 256 % 256, x % 256]

/-- Big-endian 8-byte split of a 64-bit length field. -/
def lenBytes64 (x : Nat) : List Nat :=
  [x / 2 ^ 56 % 256, x / 2 ^ 48 % 256, x / 2 ^ 40 % 256, x / 2 ^ 32 % 256,
   x / 2 ^ 24 % 256, x / 2 ^ 16 % 256, x / 2 ^ 8 % 256, x % 256]

/-- SHA-256 message padding: append 0x80, zeros to 56 mod 64, then the
bit length as a 64-bit big-endian integer. -/
def shaPad (msg : List Nat) : List Nat :=
  msg ++ [0x80] ++ List.replicate ((119 - msg.length % 64) % 64) 0
      ++ lenBytes64 ((8 * msg.length) % 2 ^ 64)

/-- Group bytes into big-endian 32-bit words. -/
def bytesToWords (bytes : List Nat) : List Nat :=
  (bytes.toChunks 4).map (fun c => c.foldl (fun acc b => acc * 256 + b) 0)

/-- Message-schedule extension, most recent word first: prepend
`σ₁(W[t-2]) + W[t-7] + σ₀(W[t-15]) + W[t-16]` `n` times. -/
def extendW (wrev : List Nat) : Nat → List Nat
  | 0 => wrev
  | n + 1 =>
    extendW (((smallSigma1 (wrev.getD 1 0) + wrev.getD 6 0
      + smallSigma0 (wrev.getD 14 0) + wrev.getD 15 0) % w32) :: wrev) n

/-- The 64-entry message schedule of one 16-word block. -/
def schedule (block : List Nat) : List Nat :=
  (extendW block.reverse 48).reverse

/-- One SHA-256 compression round on the 8-word working state. -/
def shaRound (st : List Nat) (kw : Nat × Nat) : List Nat :=
  match st with
  | [a, b, c, d, e, f, g, h] =>
    let t1 := (h + bigSigma1 e + shaCh e f g + kw.1 + kw.2) % w32
    let t2 := (bigSigma0 a + shaMaj a b c) % w32
    [(t1 + t2) % w32, a, b, c, (d + t1) % w32, e, f, g]
  | _ => st

/-- Compress one 16-word block into the running hash state. -/
def compressBlock (h : List Nat) (block : List Nat) : List Nat :=
  let final := (shaK.zip (schedule block)).foldl shaRound h
  (h.zip final).map (fun p => (p.1 + p.2) % w32)

/-- SHA-256 of a byte string, as 32 bytes. -/
def sha256 (msg : List Nat) : List Nat :=
  ((((shaPad msg).toChunks 64).map bytesToWords).foldl compressBlock shaH0).flatMap
    wordBytes

/-- Lowercase hex digit. -/
def hexDigit (n : Nat) : Char :=
  "0123456789abcdef".data.getD n 'x'

/-- Lowercase hex rendering of a byte string. -/
def bytesToHex (bytes : List Nat) : String :=
  String.mk (bytes.flatMap (fun b => [hexDigit (b / 16), hexDigit (b % 16)]))

/-- `hash_content(*parts)`: update one SHA-256 state with each truthy
(non-empty) part in order and return the hex digest; incremental update is
hashing the concatenation of the fed bytes. -/
def hash_content (parts : List String) : String :=
  bytesToHex (sha256 (parts.foldl
    (fun acc part => if part ≠ "" then acc ++ strBytes part else acc) []))

/-! ## Ranking engine (pipeline/score.py, pipeline/profile_ranker.py)

The FAISS index, the embedding provider and the journal scorer are external
collaborators of `rank`; their per-candidate outputs enter the model as
explicit lists zipped against the candidates, exactly where the source zips
`candidates`, `distances` and `compute_score` results.  `np.log1p` is a
parameter of the rational-valued pipeline and is instantiated with
`Real.log (1 + ·)` where its analytic properties matter. -/

/-- Modelled from the spec: `zotwatch.config.settings.Settings` is not under
`src/`; §4.5 of the design document describes configurable weights, two
thresholds, decay windows and whitelists, matching the attribute paths read
by `WorkRanker.rank`. -/
structure Weights where
  similarity : ℚ
  recency : ℚ
  citations : ℚ
  author_bonus : ℚ
  venue_bonus : ℚ
  deriving Repr, DecidableEq

/-- Modelled from the spec: the two label thresholds of §4.5 step 5. -/
structure Thresholds where
  must_read : ℚ
  consider : ℚ
  deriving Repr, DecidableEq

/-- Modelled from the spec: the `decay_days` mapping read with
`dict.get(key, default)`; absent keys fall back to the defaults coded in
`_compute_recency`. -/
structure DecayDays where
  fast : Option Int
  medium : Option Int
  slow : Option Int
  deriving Repr, DecidableEq

/-- Modelled from the spec: the scoring section of the settings. -/
structure ScoringSettings where
  weights : Weights
  thresholds : Thresholds
  decay_days : DecayDays
  whitelist_authors : List String
  whitelist_venues : List String
  deriving Repr, DecidableEq

/-- Modelled from the spec: the slice of `Settings` consumed by ranking. -/
structure Settings where
  scoring : ScoringSettings
  deriving Repr, DecidableEq

/-- Modelled from the spec: `zotwatch.core.models.CandidateWork` is not
under `src/`; fields follow §3 CandidateWork (publication timestamp in
seconds, metric map as an association list). -/
structure CandidateWork where
  source : String
  id : String
  title : String
  abstract : Option String
  authors : List String
  doi : Option String
  url : Option String
  published : Option Int
  venue : Option String
  metrics : List (String × ℚ)
  deriving Repr, DecidableEq

/-- Modelled from the spec: `zotwatch.core.models.RankedWork` is not under
`src/`; §3 RankedWork extends the candidate with the component scores, the
impact-factor fields and the label, unset components defaulting to zero. -/
structure RankedWork where
  work : CandidateWork
  score : ℚ
  similarity : ℚ
  recency_score : ℚ := 0
  metric_score : ℚ := 0
  author_bonus : ℚ := 0
  venue_bonus : ℚ := 0
  impact_factor_score : ℚ := 0
  impact_factor : Option ℚ := none
  is_chinese_core : Bool := false
  label : String
  deriving Repr, DecidableEq

/-- Python `str.lower()`, modelled as a per-character lowering (structural
on the character list, unlike `String.toLower`, so the kernel can evaluate
it). -/
def lower (s : String) : String := String.mk (s.data.map Char.toLower)

/-- `_bonus(values, whitelist)`: 1.0 when any truthy value lowercases into
the lowercased whitelist, else 0.0. -/
def _bonus (values whitelist : List String) : ℚ :=
  let whitelist_lower := whitelist.map lower
  if values.any (fun v => v ≠ "" && whitelist_lower.contains (lower v)) then 1 else 0

/-- `_compute_recency(published, settings)`: 0.0 with no timestamp, else a
step function of whole days elapsed (timedelta `.days` floors), clamped at
zero, against the fast/medium/slow windows with defaults 3/7/30. -/
def _compute_recency (published : Option Int) (now : Int) (s : Settings) : ℚ :=
  match published with
  | none => 0
  | some p =>
    let delta_days := max ((now - p).fdiv 86400) 0
    let decay := s.scoring.decay_days
    if delta_days ≤ decay.fast.getD 3 then 1
    else if delta_days ≤ decay.medium.getD 7 then 7 / 10
    else if delta_days ≤ decay.slow.getD 30 then 4 / 10
    else 1 / 10

/-- The citation count selected by `_compute_citation_score`:
`metrics.get("cited_by", metrics.get("is-referenced-by", 0.0))`. -/
def citationCount (c : CandidateWork) : ℚ :=
  ((c.metrics.lookup "cited_by").getD ((c.metrics.lookup "is-referenced-by").getD 0))

/-- `_compute_citation_score(candidate)`: `log1p(citations) if citations
else 0.0`; the numeric primitive `np.log1p` is a parameter. -/
def _compute_citation_score {α : Type} [Zero α] (log1p : ℚ → α)
    (c : CandidateWork) : α :=
  let citations := citationCount c
  if citations ≠ 0 then log1p citations else 0

/-- The instantiation of the `np.log1p` parameter over the reals. -/
noncomputable def log1pReal (x : ℚ) : ℝ := Real.log (1 + (x : ℝ))

/-- The label assignment shared by both rankers: start at "ignore",
upgrade by comparing the composite score to the thresholds. -/
def assignLabel (t : Thresholds) (score : ℚ) : String :=
  if score ≥ t.must_read then "must_read"
  else if score ≥ t.consider then "consider"
  else "ignore"

/-- The boolean descending-by-score order used to model
`ranked.sort(key=lambda w: w.score, reverse=True)` (a stable sort). -/
def byScoreDesc (a b : RankedWork) : Bool := decide (b.score ≤ a.score)

namespace WorkRanker

/-- The loop body of `WorkRanker.rank`: build one `RankedWork` from a
candidate and its top-1 index similarity (`float(distance[0]) if
distance.size else 0.0`). -/
def scoreOne (s : Settings) (log1p : ℚ → ℚ) (now : Int)
    (c : CandidateWork) (sim? : Option ℚ) : RankedWork :=
  let similarity := sim?.getD 0
  let recency_score := _compute_recency c.published now s
  let citation_score := _compute_citation_score log1p c
  let author_bonus := _bonus c.authors s.scoring.whitelist_authors
  let venue_bonus :=
    _bonus (match c.venue with | some v => [v] | none => []) s.scoring.whitelist_venues
  let weights := s.scoring.weights
  let score :=
    similarity * weights.similarity
      + recency_score * weights.recency
      + citation_score * weights.citations
      + author_bonus * weights.author_bonus
      + venue_bonus * weights.venue_bonus
  { work := c
    score := score
    similarity := similarity
    recency_score := recency_score
    metric_score := citation_score
    author_bonus := author_bonus
    venue_bonus := venue_bonus
    label := assignLabel s.scoring.thresholds score }

/-- The `ranked` list of `WorkRanker.rank` before sorting, in input order
(`zip(candidates, vectors, distances)` truncates like Python `zip`). -/
def scoreAll (s : Settings) (log1p : ℚ → ℚ) (now : Int)
    (candidates : List CandidateWork) (sims : List (Option ℚ)) : List RankedWork :=
  List.zipWith (scoreOne s log1p now) candidates sims

/-- `WorkRanker.rank`: score every candidate, then stably sort descending
by composite score. -/
def rank (s : Settings) (log1p : ℚ → ℚ) (now : Int)
    (candidates : List CandidateWork) (sims : List (Option ℚ)) : List RankedWork :=
  (scoreAll s log1p now candidates sims).mergeSort byScoreDesc

end WorkRanker

namespace ProfileRanker

/-- The loop body of `ProfileRanker.rank`: similarity from the index and
`(if_score, raw_if, is_cn)` from the journal scorer collaborator, combined
as `0.8 * similarity + 0.2 * if_score`. -/
def scoreOne (s : Settings) (c : CandidateWork) (sim? : Option ℚ)
    (ifs : ℚ × Option ℚ × Bool) : RankedWork :=
  let similarity := sim?.getD 0
  let score := 8 / 10 * similarity + 2 / 10 * ifs.1
  { work := c
    score := score
    similarity := similarity
    impact_factor_score := ifs.1
    impact_factor := ifs.2.1
    is_chinese_core := ifs.2.2
    label := assignLabel s.scoring.thresholds score }

/-- The `ranked` list of `ProfileRanker.rank` before sorting.  Modelled
from the spec: `zotwatch.pipeline.journal_scorer.JournalScorer` is not
under `src/`; its per-candidate `compute_score` results enter as the third
zipped list (§4.5: optional journal-impact-factor component from an
external scorer collaborator). -/
def scoreAll (s : Settings) (candidates : List CandidateWork)
    (sims : List (Option ℚ)) (ifs : List (ℚ × Option ℚ × Bool)) : List RankedWork :=
  List.zipWith (fun c p => scoreOne s c p.1 p.2) candidates (sims.zip ifs)

/-- `ProfileRanker.rank`: score, then stably sort descending by score. -/
def rank (s : Settings) (candidates : List CandidateWork)
    (sims : List (Option ℚ)) (ifs : List (ℚ × Option ℚ × Bool)) : List RankedWork :=
  (scoreAll s candidates sims ifs).mergeSort byScoreDesc

end ProfileRanker

/-! ## Post filters (cli/main.py) -/

/-- The preprint source names of `_limit_preprints`. -/
def preprintSources : List String := ["arxiv", "biorxiv", "medrxiv"]

/-- Is a ranked work a preprint (its lowercased source is in the set)? -/
def isPreprint (w : RankedWork) : Bool :=
  preprintSources.contains (lower w.work.source)

/-- The loop of `_limit_preprints`: `n` is `len(filtered)` and `pp` is
`preprint_count`; a preprint is skipped when admitting it would push the
running preprint fraction above `max_ratio`. -/
def limitLoop (max_ratio : ℚ) : List RankedWork → Nat → Nat → List RankedWork
  | [], _, _ => []
  | w :: rest, n, pp =>
    if isPreprint w then
      if ((pp : ℚ) + 1) / ((n : ℚ) + 1) > max_ratio then
        limitLoop max_ratio rest n pp
      else
        w :: limitLoop max_ratio rest (n + 1) (pp + 1)
    else
      w :: limitLoop max_ratio rest (n + 1) pp

/-- `_limit_preprints(ranked, max_ratio)`: identity on an empty list or a
non-positive ratio, else the greedy preprint-capping pass. -/
def _limit_preprints (ranked : List RankedWork) (max_ratio : ℚ) : List RankedWork :=
  if ranked = [] ∨ max_ratio ≤ 0 then ranked
  else limitLoop max_ratio ranked 0 0

/-! ## Concrete evaluation fixtures

The configuration of §8's concrete scenario (`similarity=1`, all other
weights `0`, thresholds `must_read=0.8`, `consider=0.5`) and a minimal
candidate, used to evaluate the claims on explicit inputs. -/

/-- §8 scenario settings: similarity weight 1, all else 0, thresholds
0.8 / 0.5, default decay windows, empty whitelists. -/
def exampleSettings : Settings :=
  ⟨⟨⟨1, 0, 0, 0, 0⟩, ⟨4 / 5, 1 / 2⟩, ⟨none, none, none⟩, [], []⟩⟩

/-- The same settings with every scoring weight set to zero. -/
def exampleSettingsZeroW : Settings :=
  ⟨⟨⟨0, 0, 0, 0, 0⟩, ⟨4 / 5, 1 / 2⟩, ⟨none, none, none⟩, [], []⟩⟩

/-- A minimal candidate work: no date, no venue, no metrics. -/
def exampleCandidate : CandidateWork :=
  ⟨"arxiv", "2501.00001", "Title", none, [], none, none, none, none, []⟩

/-- A ranked work from a preprint source (arxiv). -/
def exampleRankedPreprint : RankedWork :=
  { work := exampleCandidate, score := 0, similarity := 0, label := "ignore" }

/-- A ranked work from a non-preprint source. -/
def exampleRankedJournal : RankedWork :=
  { work := { exampleCandidate with source := "nature" }, score := 0, similarity := 0,
    label := "ignore" }

/-- A concrete stored item row with an up-to-date embedding. -/
def exampleRow : ItemRow :=
  { key := "K", version := 1, title := "t", abstract := none, creators := [],
    tags := [], collections := [], year := none, doi := none, url := none,
    raw_json := "r", content_hash := some "c", embedding := some [7],
    embedding_hash := some "c", updated_at := 0 }

/-- A concrete library item reusing `exampleRow`'s key. -/
def exampleItem : ZoteroItem :=
  { key := "K", version := 2, title := "t2", abstract := some "a", creators := ["x"],
    tags := [], collections := [], year := some 2024, doi := none, url := none,
    raw := "r2" }

/-! ## Helper lemmas -/

theorem exists_of_mem_zipWith {α β γ : Type} {f : α → β → γ} :
    ∀ {l1 : List α} {l2 : List β} {c : γ}, c ∈ List.zipWith f l1 l2 → ∃ a b, c = f a b
  | [], _, _, h => by simp at h
  | _ :: _, [], _, h => by simp at h
  | a :: l1, b :: l2, c, h => by
    rw [List.zipWith_cons_cons] at h
    rcases List.mem_cons.mp h with h | h
    · exact ⟨a, b, h⟩
    · exact exists_of_mem_zipWith h

theorem assignLabel_spec (t : Thresholds) (x : ℚ) :
    (t.must_read ≤ x → assignLabel t x = "must_read")
      ∧ (t.consider ≤ x → x < t.must_read → assignLabel t x = "consider")
      ∧ (x < t.must_read → x < t.consider → assignLabel t x = "ignore") := by
  unfold assignLabel
  split_ifs with h1 h2 <;>
    exact ⟨fun h => by first | rfl | linarith,
      fun h h2a => by first | rfl | linarith,
      fun h h2a => by first | rfl | linarith⟩

theorem byScoreDesc_trans (a b c : RankedWork) :
    byScoreDesc a b → byScoreDesc b c → byScoreDesc a c := by
  simp only [byScoreDesc, decide_eq_true_eq]
  exact fun h1 h2 => le_trans h2 h1

theorem byScoreDesc_total (a b : RankedWork) : byScoreDesc a b || byScoreDesc b a := by
  simp only [byScoreDesc, Bool.or_eq_true, decide_eq_true_eq]
  exact le_total b.score a.score

theorem filter_score_mergeSort (l : List RankedWork) (q : ℚ) :
    (l.mergeSort byScoreDesc).filter (fun w => w.score == q)
      = l.filter (fun w => w.score == q) := by
  have hpw : (l.filter (fun w => w.score == q)).Pairwise
      (fun a b => byScoreDesc a b = true) := by
    apply List.pairwise_of_forall_mem_list
    intro a ha b hb
    have ha2 := (List.mem_filter.mp ha).2
    have hb2 := (List.mem_filter.mp hb).2
    simp only [beq_iff_eq] at ha2 hb2
    simp [byScoreDesc, ha2, hb2]
  have hsub : (l.filter (fun w => w.score == q)).Sublist (l.mergeSort byScoreDesc) :=
    List.sublist_mergeSort byScoreDesc_trans byScoreDesc_total hpw (List.filter_sublist l)
  have hsub2 : (l.filter (fun w => w.score == q)).Sublist
      ((l.mergeSort byScoreDesc).filter (fun w => w.score == q)) := by
    have := hsub.filter (fun w => w.score == q)
    simpa using this
  have hperm : ((l.mergeSort byScoreDesc).filter (fun w => w.score == q)).Perm
      (l.filter (fun w => w.score == q)) :=
    (List.mergeSort_perm l byScoreDesc).filter _
  exact (hsub2.eq_of_length hperm.length_eq.symm).symm

theorem workRanker_scoreAll_shape (s : Settings) (f : ℚ → ℚ) (now : Int)
    (cs : List CandidateWork) (sims : List (Option ℚ)) :
    ∀ w ∈ WorkRanker.scoreAll s f now cs sims,
      w.label = assignLabel s.scoring.thresholds w.score
        ∧ w.score = w.similarity * s.scoring.weights.similarity
            + w.recency_score * s.scoring.weights.recency
            + w.metric_score * s.scoring.weights.citations
            + w.author_bonus * s.scoring.weights.author_bonus
            + w.venue_bonus * s.scoring.weights.venue_bonus := by
  intro w hw
  obtain ⟨c, p, rfl⟩ := exists_of_mem_zipWith hw
  exact ⟨rfl, rfl⟩

theorem profileRanker_scoreAll_shape (s : Settings) (cs : List CandidateWork)
    (sims : List (Option ℚ)) (ifs : List (ℚ × Option ℚ × Bool)) :
    ∀ w ∈ ProfileRanker.scoreAll s cs sims ifs,
      w.label = assignLabel s.scoring.thresholds w.score
        ∧ w.score = 8 / 10 * w.similarity + 2 / 10 * w.impact_factor_score := by
  intro w hw
  obtain ⟨c, p, rfl⟩ := exists_of_mem_zipWith hw
  exact ⟨rfl, rfl⟩

/-! ## Claims about the ranking engine -/

/-- C2.  For every candidate list (and every configuration, clock, numeric
primitive and collaborator output), the list returned by `rank` — in full
mode and in profile mode — is sorted in non-increasing order of composite
score, and candidates with equal composite scores keep their relative
order from the input list: filtering the output at any fixed score value
gives exactly the corresponding filtering of the scored-in-input-order
list. -/
theorem rank_sorted_and_stable (s : Settings) (f : ℚ → ℚ) (now : Int)
    (cs : List CandidateWork) (sims : List (Option ℚ))
    (ifs : List (ℚ × Option ℚ × Bool)) :
    ((WorkRanker.rank s f now cs sims).Pairwise (fun a b => b.score ≤ a.score)
        ∧ ∀ q : ℚ, (WorkRanker.rank s f now cs sims).filter (fun w => w.score == q)
            = (WorkRanker.scoreAll s f now cs sims).filter (fun w => w.score == q))
      ∧ ((ProfileRanker.rank s cs sims ifs).Pairwise (fun a b => b.score ≤ a.score)
        ∧ ∀ q : ℚ, (ProfileRanker.rank s cs sims ifs).filter (fun w => w.score == q)
            = (ProfileRanker.scoreAll s cs sims ifs).filter (fun w => w.score == q)) := by
  constructor
  · constructor
    · have := List.sorted_mergeSort byScoreDesc_trans byScoreDesc_total
        (WorkRanker.scoreAll s f now cs sims)
      simpa [WorkRanker.rank, byScoreDesc] using this
    · exact fun q => filter_score_mergeSort _ q
  · constructor
    · have := List.sorted_mergeSort byScoreDesc_trans byScoreDesc_total
        (ProfileRanker.scoreAll s cs sims ifs)
      simpa [ProfileRanker.rank, byScoreDesc] using this
    · exact fun q => filter_score_mergeSort _ q

/-- C3.  For every ranked candidate, in both modes: composite score above
the `must_read` threshold gives label "must_read"; at least `consider` but
below `must_read` gives "consider"; below both gives "ignore". -/
theorem rank_label_assignment (s : Settings) (f : ℚ → ℚ) (now : Int)
    (cs : List CandidateWork) (sims : List (Option ℚ))
    (ifs : List (ℚ × Option ℚ × Bool)) :
    (∀ w ∈ WorkRanker.rank s f now cs sims,
        (s.scoring.thresholds.must_read ≤ w.score → w.label = "must_read")
          ∧ (s.scoring.thresholds.consider ≤ w.score →
              w.score < s.scoring.thresholds.must_read → w.label = "consider")
          ∧ (w.score < s.scoring.thresholds.must_read →
              w.score < s.scoring.thresholds.consider → w.label = "ignore"))
      ∧ (∀ w ∈ ProfileRanker.rank s cs sims ifs,
        (s.scoring.thresholds.must_read ≤ w.score → w.label = "must_read")
          ∧ (s.scoring.thresholds.consider ≤ w.score →
              w.score < s.scoring.thresholds.must_read → w.label = "consider")
          ∧ (w.score < s.scoring.thresholds.must_read →
              w.score < s.scoring.thresholds.consider → w.label = "ignore")) := by
  constructor
  · intro w hw
    have hmem : w ∈ WorkRanker.scoreAll s f now cs sims := by
      simpa [WorkRanker.rank, List.mem_mergeSort] using hw
    have hlab := (workRanker_scoreAll_shape s f now cs sims w hmem).1
    rw [hlab]
    exact assignLabel_spec s.scoring.thresholds w.score
  · intro w hw
    have hmem : w ∈ ProfileRanker.scoreAll s cs sims ifs := by
      simpa [ProfileRanker.rank, List.mem_mergeSort] using hw
    have hlab := (profileRanker_scoreAll_shape s cs sims ifs w hmem).1
    rw [hlab]
    exact assignLabel_spec s.scoring.thresholds w.score

/-- Witness for C3: in the §8 scenario a candidate with similarity 0.91
lands above the 0.8 threshold and the theorem yields label "must_read". -/
theorem rank_label_assignment_witness :
    ({ work := exampleCandidate, score := 91 / 100, similarity := 91 / 100, label := "must_read" } : RankedWork)
        ∈ WorkRanker.rank exampleSettings (fun x => x) 0 [exampleCandidate]
          [some (91 / 100)]
      ∧ exampleSettings.scoring.thresholds.must_read ≤ (91 / 100 : ℚ)
      ∧ ({ work := exampleCandidate, score := 91 / 100, similarity := 91 / 100, label := "must_read" } : RankedWork).label
          = "must_read" := by
  have hlist : WorkRanker.rank exampleSettings (fun x => x) 0 [exampleCandidate]
      [some (91 / 100)]
      = [{ work := exampleCandidate, score := 91 / 100, similarity := 91 / 100, label := "must_read" }] := by
    simp [WorkRanker.rank, WorkRanker.scoreAll, WorkRanker.scoreOne, _compute_recency,
      _compute_citation_score, citationCount, _bonus, assignLabel, exampleSettings,
      exampleCandidate]
    norm_num
  have hmem : ({ work := exampleCandidate, score := 91 / 100, similarity := 91 / 100, label := "must_read" } : RankedWork)
      ∈ WorkRanker.rank exampleSettings (fun x => x) 0 [exampleCandidate]
        [some (91 / 100)] := by
    rw [hlist]
    exact List.mem_singleton_self _
  refine ⟨hmem, by norm_num [exampleSettings], ?_⟩
  exact ((rank_label_assignment exampleSettings (fun x => x) 0 [exampleCandidate]
    [some (91 / 100)] []).1 _ hmem).1 (by norm_num [exampleSettings])

/-- Counterexample for C4: with the similarity weight reconfigured from 1
to 0, the full-mode score of a similarity-1 candidate drops from 1 to 0,
but the profile-mode score stays 0.8 — the profile-mode weights 0.8/0.2
are hardcoded in `ProfileRanker.rank`, not supplied by configuration. -/
theorem profile_weights_hardcoded_counterexample :
    exampleSettings.scoring.weights ≠ exampleSettingsZeroW.scoring.weights
      ∧ (WorkRanker.rank exampleSettings (fun x => x) 0 [exampleCandidate]
          [some 1]).map RankedWork.score = [1]
      ∧ (WorkRanker.rank exampleSettingsZeroW (fun x => x) 0 [exampleCandidate]
          [some 1]).map RankedWork.score = [0]
      ∧ (ProfileRanker.rank exampleSettings [exampleCandidate] [some 1]
          [(0, none, false)]).map RankedWork.score = [4 / 5]
      ∧ (ProfileRanker.rank exampleSettingsZeroW [exampleCandidate] [some 1]
          [(0, none, false)]).map RankedWork.score = [4 / 5] := by
  refine ⟨?_, ?_, ?_, ?_, ?_⟩
  · simp [exampleSettings, exampleSettingsZeroW]
  · simp [WorkRanker.rank, WorkRanker.scoreAll, WorkRanker.scoreOne, _compute_recency,
      _compute_citation_score, citationCount, _bonus, assignLabel, exampleSettings,
      exampleCandidate]
  · simp [WorkRanker.rank, WorkRanker.scoreAll, WorkRanker.scoreOne, _compute_recency,
      _compute_citation_score, citationCount, _bonus, assignLabel, exampleSettingsZeroW,
      exampleCandidate]
  · simp [ProfileRanker.rank, ProfileRanker.scoreAll, ProfileRanker.scoreOne,
      assignLabel, exampleSettings, exampleCandidate]
    norm_num
  · simp [ProfileRanker.rank, ProfileRanker.scoreAll, ProfileRanker.scoreOne,
      assignLabel, exampleSettingsZeroW, exampleCandidate]
    norm_num

/-- C4 (amended).  The full-mode composite score is the weighted sum of
the component scores with the configuration-supplied weights; the
profile-mode composite score is the fixed combination
`0.8 * similarity + 0.2 * impact_factor_score`, with weights hardcoded in
the engine and the configured weights ignored. -/
theorem composite_score_weighted_sum (s : Settings) (f : ℚ → ℚ) (now : Int)
    (cs : List CandidateWork) (sims : List (Option ℚ))
    (ifs : List (ℚ × Option ℚ × Bool)) :
    (∀ w ∈ WorkRanker.rank s f now cs sims,
        w.score = w.similarity * s.scoring.weights.similarity
          + w.recency_score * s.scoring.weights.recency
          + w.metric_score * s.scoring.weights.citations
          + w.author_bonus * s.scoring.weights.author_bonus
          + w.venue_bonus * s.scoring.weights.venue_bonus)
      ∧ (∀ w ∈ ProfileRanker.rank s cs sims ifs,
        w.score = 8 / 10 * w.similarity + 2 / 10 * w.impact_factor_score)
      ∧ (∀ s2 : Settings, s2.scoring.thresholds = s.scoring.thresholds →
        ProfileRanker.rank s2 cs sims ifs = ProfileRanker.rank s cs sims ifs) := by
  refine ⟨?_, ?_, ?_⟩
  · intro w hw
    have hmem : w ∈ WorkRanker.scoreAll s f now cs sims := by
      simpa [WorkRanker.rank, List.mem_mergeSort] using hw
    exact (workRanker_scoreAll_shape s f now cs sims w hmem).2
  · intro w hw
    have hmem : w ∈ ProfileRanker.scoreAll s cs sims ifs := by
      simpa [ProfileRanker.rank, List.mem_mergeSort] using hw
    exact (profileRanker_scoreAll_shape s cs sims ifs w hmem).2
  · intro s2 ht
    simp [ProfileRanker.rank, ProfileRanker.scoreAll, ProfileRanker.scoreOne, ht]

/-- Witness for C4 (amended): concrete evaluation of both modes on the
fixture candidate. -/
theorem composite_score_weighted_sum_witness :
    ({ work := exampleCandidate, score := 91 / 100, similarity := 91 / 100, label := "must_read" } : RankedWork)
        ∈ WorkRanker.rank exampleSettings (fun x => x) 0 [exampleCandidate]
          [some (91 / 100)]
      ∧ (91 / 100 : ℚ) = 91 / 100 * exampleSettings.scoring.weights.similarity
          + 0 * exampleSettings.scoring.weights.recency
          + 0 * exampleSettings.scoring.weights.citations
          + 0 * exampleSettings.scoring.weights.author_bonus
          + 0 * exampleSettings.scoring.weights.venue_bonus
      ∧ ({ work := exampleCandidate, score := 4 / 5, similarity := 1, impact_factor_score := 0, label := "must_read" } : RankedWork)
        ∈ ProfileRanker.rank exampleSettingsZeroW [exampleCandidate] [some 1]
          [(0, none, false)]
      ∧ (4 / 5 : ℚ) = 8 / 10 * 1 + 2 / 10 * 0 := by
  have hlist1 : WorkRanker.rank exampleSettings (fun x => x) 0 [exampleCandidate]
      [some (91 / 100)]
      = [{ work := exampleCandidate, score := 91 / 100, similarity := 91 / 100, label := "must_read" }] := by
    simp [WorkRanker.rank, WorkRanker.scoreAll, WorkRanker.scoreOne, _compute_recency,
      _compute_citation_score, citationCount, _bonus, assignLabel, exampleSettings,
      exampleCandidate]
    norm_num
  have hlist2 : ProfileRanker.rank exampleSettingsZeroW [exampleCandidate] [some 1]
      [(0, none, false)]
      = [{ work := exampleCandidate, score := 4 / 5, similarity := 1, impact_factor_score := 0, label := "must_read" }] := by
    simp [ProfileRanker.rank, ProfileRanker.scoreAll, ProfileRanker.scoreOne,
      assignLabel, exampleSettingsZeroW, exampleCandidate]
    norm_num
  have hmem1 : ({ work := exampleCandidate, score := 91 / 100, similarity := 91 / 100, label := "must_read" } : RankedWork)
      ∈ WorkRanker.rank exampleSettings (fun x => x) 0 [exampleCandidate]
        [some (91 / 100)] := by
    rw [hlist1]; exact List.mem_singleton_self _
  have hmem2 : ({ work := exampleCandidate, score := 4 / 5, similarity := 1, impact_factor_score := 0, label := "must_read" } : RankedWork)
      ∈ ProfileRanker.rank exampleSettingsZeroW [exampleCandidate] [some 1]
        [(0, none, false)] := by
    rw [hlist2]; exact List.mem_singleton_self _
  refine ⟨hmem1, ?_, hmem2, by norm_num⟩
  have h := (composite_score_weighted_sum exampleSettings (fun x => x) 0
    [exampleCandidate] [some (91 / 100)] []).1 _ hmem1
  simpa using h

/-- C7.  A candidate with no published timestamp scores recency exactly 0
(the Lean model is a total function, so no failure is possible, mirroring
the code's early return); with a timestamp, recency is the step function
of clamped whole days since publication over the configured
fast/medium/slow windows (defaults 3/7/30): full score 1.0 in the fast
window, partial scores 0.7 and 0.4 in the medium and slow windows, and
the minimal score 0.1 beyond. -/
theorem recency_step_function (s : Settings) (now p : Int)
    (hfm : s.scoring.decay_days.fast.getD 3 ≤ s.scoring.decay_days.medium.getD 7)
    (hms : s.scoring.decay_days.medium.getD 7 ≤ s.scoring.decay_days.slow.getD 30) :
    _compute_recency none now s = 0
      ∧ (max ((now - p).fdiv 86400) 0 ≤ s.scoring.decay_days.fast.getD 3 →
          _compute_recency (some p) now s = 1)
      ∧ (s.scoring.decay_days.fast.getD 3 < max ((now - p).fdiv 86400) 0 →
          max ((now - p).fdiv 86400) 0 ≤ s.scoring.decay_days.medium.getD 7 →
          _compute_recency (some p) now s = 7 / 10)
      ∧ (s.scoring.decay_days.medium.getD 7 < max ((now - p).fdiv 86400) 0 →
          max ((now - p).fdiv 86400) 0 ≤ s.scoring.decay_days.slow.getD 30 →
          _compute_recency (some p) now s = 4 / 10)
      ∧ (s.scoring.decay_days.slow.getD 30 < max ((now - p).fdiv 86400) 0 →
          _compute_recency (some p) now s = 1 / 10) := by
  refine ⟨rfl, ?_, ?_, ?_, ?_⟩ <;>
    · intros
      simp only [_compute_recency]
      split_ifs <;> first | rfl | omega

/-- Witness for C7: default windows, a candidate published 10 days before
`now` falls in the slow window and scores 0.4; a missing date scores 0. -/
theorem recency_step_function_witness :
    _compute_recency (some 0) 864000 exampleSettings = 4 / 10
      ∧ _compute_recency none 864000 exampleSettings = 0 := by
  have h := recency_step_function exampleSettings 864000 0 (by decide) (by decide)
  exact ⟨h.2.2.2.1 (by decide) (by decide), h.1⟩

/-- Counterexample for C8: nothing stops the metric map from carrying a
negative value; at `cited_by = -1/2` the component is `log(1/2) < 0`, so
"the component is never negative" fails as stated over all candidates. -/
theorem citation_negative_counterexample :
    _compute_citation_score log1pReal
      { exampleCandidate with metrics := [("cited_by", -(1 / 2))] } < 0 := by
  have hc : citationCount
      { exampleCandidate with metrics := [("cited_by", -(1 / 2))] } = -(1 / 2) := rfl
  have hbody : _compute_citation_score log1pReal
      { exampleCandidate with metrics := [("cited_by", -(1 / 2))] }
      = log1pReal (-(1 / 2)) := by
    simp only [_compute_citation_score, hc]
    rw [if_pos (by norm_num)]
  rw [hbody]
  have hval : log1pReal (-(1 / 2)) = Real.log (1 / 2) := by
    simp only [log1pReal]
    norm_num
  rw [hval]
  exact Real.log_neg (by norm_num) (by norm_num)

/-- C8 (amended).  The citation component equals `log1p` of the selected
citation count (`cited_by`, falling back to `is-referenced-by`, then 0)
whenever that count is nonzero, and equals exactly 0 when the candidate is
uncited or the count is unknown; it is nonnegative whenever the stored
count is nonnegative, so an unknown count never penalizes a candidate
below zero. -/
theorem citation_score_amended (c : CandidateWork) :
    (citationCount c ≠ 0 →
        _compute_citation_score log1pReal c = Real.log (1 + (citationCount c : ℝ)))
      ∧ (citationCount c = 0 → _compute_citation_score log1pReal c = 0)
      ∧ (0 ≤ citationCount c → 0 ≤ _compute_citation_score log1pReal c) := by
  refine ⟨fun h => by simp [_compute_citation_score, log1pReal, h],
    fun h => by simp [_compute_citation_score, h], fun h => ?_⟩
  by_cases hz : citationCount c = 0
  · simp [_compute_citation_score, hz]
  · have hbody : _compute_citation_score log1pReal c = log1pReal (citationCount c) := by
      simp [_compute_citation_score, hz]
    rw [hbody]
    simp only [log1pReal]
    apply Real.log_nonneg
    have h0 : (0 : ℝ) ≤ ((citationCount c : ℚ) : ℝ) := by exact_mod_cast h
    linarith

/-- Witness for C8 (amended): a candidate cited 3 times has a nonnegative
component (`log 4`); the nonnegativity clause applies at this input. -/
theorem citation_score_amended_witness :
    (0 : ℚ) ≤ citationCount { exampleCandidate with metrics := [("cited_by", 3)] }
      ∧ 0 ≤ _compute_citation_score log1pReal
          { exampleCandidate with metrics := [("cited_by", 3)] } := by
  have hc : citationCount { exampleCandidate with metrics := [("cited_by", 3)] } = 3 := rfl
  have h0 : (0 : ℚ) ≤ citationCount { exampleCandidate with metrics := [("cited_by", 3)] } := by
    rw [hc]; norm_num
  exact ⟨h0, (citation_score_amended _).2.2 h0⟩

/-! ## Claims about content hashing -/

theorem strBytes_append (s t : String) :
    strBytes (s ++ t) = strBytes s ++ strBytes t := by
  simp [strBytes, String.data_append, List.flatMap_append]

theorem strBytes_foldl_append (L : List String) (acc : String) :
    strBytes (L.foldl (fun r s => r ++ s) acc) = strBytes acc ++ L.flatMap strBytes := by
  induction L generalizing acc with
  | nil => simp
  | cons a L ih => simp [List.foldl_cons, ih, strBytes_append, List.flatMap_cons]

theorem strBytes_join (L : List String) :
    strBytes (String.join L) = L.flatMap strBytes := by
  have h := strBytes_foldl_append L ""
  simpa [String.join] using h

theorem hash_content_foldl (parts : List String) (acc : List Nat) :
    parts.foldl (fun a p => if p ≠ "" then a ++ strBytes p else a) acc
      = acc ++ (parts.filter (fun p => p ≠ "")).flatMap strBytes := by
  induction parts generalizing acc with
  | nil => simp
  | cons p parts ih =>
    simp only [List.foldl_cons]
    by_cases hp : p = ""
    · rw [if_neg (not_not_intro hp), ih]
      simp [hp]
    · rw [if_pos hp, ih]
      simp [hp, List.filter_cons, List.flatMap_cons, List.append_assoc]

/-- C9.  `hash_content(*parts)` equals the SHA-256 hex digest of the
concatenation of only the non-empty parts; hence any two part lists whose
non-empty parts concatenate to the same text share the content hash —
e.g. `hash_content("AB", "")` equals both `hash_content("A", "B")` and
`hash_content("AB")`, so an empty field is indistinguishable from an
absent one in change detection. -/
theorem hash_content_concat_nonempty (p1 p2 : List String) :
    (∀ parts : List String, hash_content parts
        = bytesToHex (sha256 (strBytes (String.join (parts.filter (fun p => p ≠ ""))))))
      ∧ (String.join (p1.filter (fun p => p ≠ ""))
            = String.join (p2.filter (fun p => p ≠ "")) →
          hash_content p1 = hash_content p2)
      ∧ hash_content ["AB", ""] = hash_content ["A", "B"]
      ∧ hash_content ["AB", ""] = hash_content ["AB"] := by
  have hrep : ∀ parts : List String, hash_content parts
      = bytesToHex (sha256 (strBytes (String.join (parts.filter (fun p => p ≠ ""))))) := by
    intro parts
    show bytesToHex (sha256 (parts.foldl
      (fun a p => if p ≠ "" then a ++ strBytes p else a) [])) = _
    rw [hash_content_foldl, List.nil_append, strBytes_join]
  have himp : ∀ q1 q2 : List String, String.join (q1.filter (fun p => p ≠ ""))
      = String.join (q2.filter (fun p => p ≠ "")) → hash_content q1 = hash_content q2 := by
    intro q1 q2 h
    rw [hrep q1, hrep q2, h]
  exact ⟨hrep, himp p1 p2, himp _ _ (by decide), himp _ _ (by decide)⟩

/-- Witness for C9: the split-equality clause applied at the concrete
splits `["AB", ""]` and `["A", "B"]` of the same text. -/
theorem hash_content_concat_nonempty_witness :
    String.join (["AB", ""].filter (fun p => p ≠ ""))
        = String.join (["A", "B"].filter (fun p => p ≠ ""))
      ∧ hash_content ["AB", ""] = hash_content ["A", "B"] :=
  ⟨by decide, (hash_content_concat_nonempty ["AB", ""] ["A", "B"]).2.1 (by decide)⟩

/-! ## Claims about the preprint cap -/

theorem limitLoop_sublist (r : ℚ) :
    ∀ (l : List RankedWork) (n pp : Nat), (limitLoop r l n pp).Sublist l := by
  intro l
  induction l with
  | nil => intro n pp; simp [limitLoop]
  | cons w rest ih =>
    intro n pp
    simp only [limitLoop]
    split_ifs with h1 h2
    · exact (ih n pp).cons w
    · exact (ih (n + 1) (pp + 1)).cons₂ w
    · exact (ih (n + 1) pp).cons₂ w

theorem limitLoop_take_count (r : ℚ) (hr : 0 < r) :
    ∀ (l : List RankedWork) (n pp : Nat), (pp : ℚ) ≤ r * n →
      ∀ m : Nat, (List.countP isPreprint ((limitLoop r l n pp).take m) : ℚ) + pp
        ≤ r * (n + ((limitLoop r l n pp).take m).length) := by
  intro l
  induction l with
  | nil =>
    intro n pp h m
    simpa [limitLoop] using h
  | cons w rest ih =>
    intro n pp h m
    simp only [limitLoop]
    split_ifs with h1 h2
    · exact ih n pp h m
    · have hdiv : ((pp : ℚ) + 1) / ((n : ℚ) + 1) ≤ r := not_lt.mp h2
      have hpos : (0 : ℚ) < (n : ℚ) + 1 := by positivity
      have hineq : ((pp : ℚ) + 1) ≤ r * ((n : ℚ) + 1) :=
        (div_le_iff₀ hpos).mp hdiv
      cases m with
      | zero => simpa using h
      | succ m =>
        have hrec := ih (n + 1) (pp + 1) (by push_cast; linarith) m
        simp only [List.take_succ_cons, List.countP_cons, List.length_cons, h1] at hrec ⊢
        push_cast at hrec ⊢
        linarith
    · cases m with
      | zero => simpa using h
      | succ m =>
        have hmono : (pp : ℚ) ≤ r * ((n : ℚ) + 1) := by nlinarith
        have hrec := ih (n + 1) pp (by push_cast; linarith) m
        simp only [List.take_succ_cons, List.countP_cons, List.length_cons, h1] at hrec ⊢
        push_cast at hrec ⊢
        linarith

/-- C10.  For a positive `max_ratio`, `_limit_preprints` returns a
subsequence of its input (relative order preserved) in which every prefix
carries at most a `max_ratio` fraction of preprint-source works; for a
non-positive ratio or an empty input the list is returned unchanged. -/
theorem limit_preprints_spec (ranked : List RankedWork) (max_ratio : ℚ) :
    (0 < max_ratio →
        (_limit_preprints ranked max_ratio).Sublist ranked
          ∧ ∀ m : Nat, m ≤ (_limit_preprints ranked max_ratio).length →
              (List.countP isPreprint ((_limit_preprints ranked max_ratio).take m) : ℚ)
                ≤ max_ratio * m)
      ∧ (max_ratio ≤ 0 → _limit_preprints ranked max_ratio = ranked)
      ∧ (ranked = [] → _limit_preprints ranked max_ratio = ranked) := by
  refine ⟨fun hr => ?_, fun hr => ?_, fun hr => ?_⟩
  · unfold _limit_preprints
    split_ifs with hcond
    · rcases hcond with hnil | hneg
      · subst hnil
        refine ⟨List.Sublist.refl _, fun m hm => ?_⟩
        simp only [List.take_nil, List.countP_nil, Nat.cast_zero]
        positivity
      · linarith
    · constructor
      · exact limitLoop_sublist max_ratio ranked 0 0
      · intro m hm
        have h := limitLoop_take_count max_ratio hr ranked 0 0 (by simp) m
        have hlen : ((limitLoop max_ratio ranked 0 0).take m).length = m := by
          rw [List.length_take]
          exact Nat.min_eq_left hm
        rw [hlen] at h
        simpa using h
  · unfold _limit_preprints
    rw [if_pos (Or.inr hr)]
  · unfold _limit_preprints
    rw [if_pos (Or.inl hr)]

/-- Witness for C10: with ratio 1/2 and input [preprint, journal], the
leading preprint is dropped (it would make the first prefix 100%
preprint), the journal kept; the prefix bound holds at the full output. -/
theorem limit_preprints_spec_witness :
    (0 : ℚ) < 1 / 2
      ∧ (_limit_preprints [exampleRankedPreprint, exampleRankedJournal] (1 / 2)).Sublist
          [exampleRankedPreprint, exampleRankedJournal]
      ∧ 1 ≤ (_limit_preprints [exampleRankedPreprint, exampleRankedJournal] (1 / 2)).length
      ∧ (List.countP isPreprint
            ((_limit_preprints [exampleRankedPreprint, exampleRankedJournal]
              (1 / 2)).take 1) : ℚ) ≤ 1 / 2 * 1 := by
  have hpre : isPreprint exampleRankedPreprint = true := by decide
  have hjour : isPreprint exampleRankedJournal = false := by decide
  have heval : _limit_preprints [exampleRankedPreprint, exampleRankedJournal] (1 / 2)
      = [exampleRankedJournal] := by
    unfold _limit_preprints
    rw [if_neg (by push_neg; exact ⟨by simp, by norm_num⟩)]
    simp only [limitLoop, hpre, hjour]
    norm_num
  have hr : (0 : ℚ) < 1 / 2 := by norm_num
  have h := (limit_preprints_spec [exampleRankedPreprint, exampleRankedJournal] (1 / 2)).1 hr
  refine ⟨hr, h.1, ?_, h.2 1 ?_⟩
  · rw [heval]
    exact le_refl _
  · rw [heval]
    exact le_refl _

/-! ## Claims about the item store -/

theorem mem_staleKeys (db : ItemTable) (k : String) :
    k ∈ staleKeys db ↔ ∃ r ∈ db, needsEmbedding r = true ∧ r.key = k := by
  simp only [staleKeys, fetch_items_needing_embedding, List.mem_map,
    List.mem_mergeSort, List.mem_filter, rowToItem]
  constructor
  · rintro ⟨item, ⟨r, ⟨hr, hneeds⟩, rfl⟩, rfl⟩
    exact ⟨r, hr, hneeds, rfl⟩
  · rintro ⟨r, hr, hneeds, rfl⟩
    exact ⟨rowToItem r, ⟨r, ⟨hr, hneeds⟩, rfl⟩, rfl⟩

theorem upsert_content_hash (db : ItemTable) (i : ZoteroItem) (ch : Option String)
    (t : Nat) : ∀ r ∈ upsert_item db i ch t, r.key = i.key → r.content_hash = ch := by
  intro r hr hk
  unfold upsert_item at hr
  split_ifs at hr with hany
  · rcases List.mem_map.mp hr with ⟨r0, hr0, rfl⟩
    by_cases h : r0.key = i.key
    · simp [h]
    · simp only [beq_iff_eq, h, if_false] at hk ⊢
  · rcases List.mem_append.mp hr with h | h
    · have hall : ∀ x ∈ db, ¬x.key = i.key := by
        simpa [List.any_eq_true] using hany
      exact absurd hk (hall r h)
    · rcases List.mem_singleton.mp h with rfl
      rfl

theorem upsert_exists_key (db : ItemTable) (i : ZoteroItem) (ch : Option String)
    (t : Nat) : ∃ r ∈ upsert_item db i ch t, r.key = i.key := by
  unfold upsert_item
  split_ifs with hany
  · rcases List.any_eq_true.mp hany with ⟨r0, hr0, hk⟩
    simp only [beq_iff_eq] at hk
    refine ⟨_, List.mem_map_of_mem _ hr0, ?_⟩
    simp [hk]
  · exact ⟨_, List.mem_append_right _ (List.mem_singleton_self _), rfl⟩

/-- C1.  After `upsert_item` writes an item with content hash `c`, the item
is reported by `fetch_items_needing_embedding` whenever its stored
embedding is absent or its stored `embedding_hash` differs from `c` (a
fresh key always qualifies); it keeps being reported across `set_embedding`
calls with a different hash and across `set_embedding` calls on other
keys, and stops being reported exactly after `set_embedding` stores an
embedding for the key with `embedding_hash = c`. -/
theorem upsert_staleness_invariant (db : ItemTable) (i : ZoteroItem) (c : String)
    (t1 : Nat) :
    ((∀ r ∈ db, r.key ≠ i.key) → i.key ∈ staleKeys (upsert_item db i (some c) t1))
      ∧ (∀ r ∈ db, r.key = i.key →
          (r.embedding = none ∨ r.embedding_hash ≠ some c) →
          i.key ∈ staleKeys (upsert_item db i (some c) t1))
      ∧ (∀ (v : List Nat) (h : Option String) (t2 : Nat), h ≠ some c →
          i.key ∈ staleKeys (set_embedding (upsert_item db i (some c) t1) i.key v h t2))
      ∧ (∀ (k2 : String) (v : List Nat) (h : Option String) (t2 : Nat), k2 ≠ i.key →
          i.key ∈ staleKeys (upsert_item db i (some c) t1) →
          i.key ∈ staleKeys (set_embedding (upsert_item db i (some c) t1) k2 v h t2))
      ∧ (∀ (v : List Nat) (t2 : Nat),
          i.key ∉ staleKeys (set_embedding (upsert_item db i (some c) t1) i.key v
            (some c) t2)) := by
  refine ⟨?_, ?_, ?_, ?_, ?_⟩
  · intro hall
    have hany : db.any (fun r => r.key == i.key) = false := by
      simp only [List.any_eq_false]
      intro r hr
      simpa using hall r hr
    rw [mem_staleKeys]
    unfold upsert_item
    rw [if_neg (by simp [hany])]
    exact ⟨_, List.mem_append_right _ (List.mem_singleton_self _), rfl, rfl⟩
  · intro r hr hk hstale
    have hany : db.any (fun x => x.key == i.key) = true :=
      List.any_eq_true.mpr ⟨r, hr, by simp [hk]⟩
    rw [mem_staleKeys]
    unfold upsert_item
    rw [if_pos (by simp [hany])]
    refine ⟨_, List.mem_map_of_mem _ hr, ?_, ?_⟩
    · simp only [beq_iff_eq, hk, if_true]
      rcases hstale with he | hh
      · simp [needsEmbedding, he]
      · cases hemb : r.embedding_hash with
        | none => simp [needsEmbedding, hemb]
        | some h0 =>
          have hne : h0 ≠ c := fun hEq => hh (by rw [hemb, hEq])
          simp [needsEmbedding, hemb, sqlNe, hne]
    · simp only [beq_iff_eq, hk, if_true]
  · intro v h t2 hne
    obtain ⟨r1, hr1, hk1⟩ := upsert_exists_key db i (some c) t1
    have hch := upsert_content_hash db i (some c) t1 r1 hr1 hk1
    rw [mem_staleKeys]
    unfold set_embedding
    refine ⟨_, List.mem_map_of_mem _ hr1, ?_, ?_⟩
    · simp only [beq_iff_eq, hk1, if_true]
      cases h with
      | none => simp [needsEmbedding]
      | some h0 =>
        have hne0 : h0 ≠ c := fun hEq => hne (by rw [hEq])
        simp [needsEmbedding, sqlNe, hch, hne0]
    · simp only [beq_iff_eq, hk1, if_true]
  · intro k2 v h t2 hkne hmem
    rw [mem_staleKeys] at hmem ⊢
    obtain ⟨r1, hr1, hneeds, hk1⟩ := hmem
    unfold set_embedding
    have hne : r1.key ≠ k2 := by
      rw [hk1]
      exact fun hEq => hkne hEq.symm
    refine ⟨_, List.mem_map_of_mem _ hr1, ?_, ?_⟩
    · simp only [beq_iff_eq, hne, if_false]
      exact hneeds
    · simp only [beq_iff_eq, hne, if_false]
      exact hk1
  · intro v t2 hmem
    rw [mem_staleKeys] at hmem
    obtain ⟨r2, hr2, hneeds, hk2⟩ := hmem
    unfold set_embedding at hr2
    rcases List.mem_map.mp hr2 with ⟨r1, hr1, rfl⟩
    by_cases hbeq : r1.key = i.key
    · have hch := upsert_content_hash db i (some c) t1 r1 hr1 hbeq
      simp only [beq_iff_eq, hbeq, if_true] at hneeds
      simp [needsEmbedding, sqlNe, hch] at hneeds
    · simp only [beq_iff_eq, hbeq, if_false] at hk2

/-- Witness for C1: a stored row whose embedding hash "c" differs from the
newly upserted content hash "c2" is reported stale, and stops being
reported once `set_embedding` stores the new hash. -/
theorem upsert_staleness_invariant_witness :
    "K" ∈ staleKeys (upsert_item [exampleRow] exampleItem (some "c2") 1)
      ∧ "K" ∉ staleKeys (set_embedding (upsert_item [exampleRow] exampleItem
          (some "c2") 1) "K" [9] (some "c2") 2) := by
  have h := upsert_staleness_invariant [exampleRow] exampleItem "c2" 1
  exact ⟨h.2.1 exampleRow (List.mem_singleton_self _) rfl (Or.inr (by decide)),
    h.2.2.2.2 [9] 2⟩

/-- C5.  For an existing key, `upsert_item` replaces every metadata column
(version, title, abstract, creators, tags, collections, year, doi, url,
raw payload, content hash) of that key's row while leaving the stored
`embedding` and `embedding_hash` unchanged; rows with other keys are
untouched. -/
theorem upsert_frame (db : ItemTable) (i : ZoteroItem) (ch : Option String)
    (t1 : Nat) (hex : ∃ r0 ∈ db, r0.key = i.key) :
    (upsert_item db i ch t1).length = db.length
      ∧ ∀ (j : Nat) (hj : j < db.length) (hj2 : j < (upsert_item db i ch t1).length),
          (db[j].key = i.key →
              (upsert_item db i ch t1)[j].version = i.version
            ∧ (upsert_item db i ch t1)[j].title = i.title
            ∧ (upsert_item db i ch t1)[j].abstract = i.abstract
            ∧ (upsert_item db i ch t1)[j].creators = i.creators
            ∧ (upsert_item db i ch t1)[j].tags = i.tags
            ∧ (upsert_item db i ch t1)[j].collections = i.collections
            ∧ (upsert_item db i ch t1)[j].year = i.year
            ∧ (upsert_item db i ch t1)[j].doi = i.doi
            ∧ (upsert_item db i ch t1)[j].url = i.url
            ∧ (upsert_item db i ch t1)[j].raw_json = i.raw
            ∧ (upsert_item db i ch t1)[j].content_hash = ch
            ∧ (upsert_item db i ch t1)[j].embedding = db[j].embedding
            ∧ (upsert_item db i ch t1)[j].embedding_hash = db[j].embedding_hash)
          ∧ (db[j].key ≠ i.key → (upsert_item db i ch t1)[j] = db[j]) := by
  have hany : db.any (fun r => r.key == i.key) = true := by
    obtain ⟨r0, h0, hk⟩ := hex
    exact List.any_eq_true.mpr ⟨r0, h0, by simp [hk]⟩
  have hup : upsert_item db i ch t1 = db.map (fun r =>
      if r.key == i.key then
        { r with
          version := i.version, title := i.title, abstract := i.abstract,
          creators := i.creators, tags := i.tags, collections := i.collections,
          year := i.year, doi := i.doi, url := i.url, raw_json := i.raw,
          content_hash := ch, updated_at := t1 }
      else r) := by
    unfold upsert_item
    rw [if_pos (by simp [hany])]
  constructor
  · rw [hup]
    simp
  · intro j hj hj2
    constructor
    · intro hk
      simp [hup, hk]
    · intro hk
      have hbeq : (db[j].key == i.key) = false := by simpa using hk
      simp only [hup, List.getElem_map, hbeq, Bool.false_eq_true, if_false]

/-- Witness for C5: upserting `exampleItem` over `exampleRow`'s key swaps
the metadata (title, content hash) but keeps the stored embedding and its
hash. -/
theorem upsert_frame_witness :
    ((upsert_item [exampleRow] exampleItem (some "c2") 1).get ⟨0, by
        have h := (upsert_frame [exampleRow] exampleItem (some "c2") 1
          ⟨exampleRow, List.mem_singleton_self _, rfl⟩).1
        rw [h]
        decide⟩).embedding = some [7]
      ∧ ((upsert_item [exampleRow] exampleItem (some "c2") 1).get ⟨0, by
          have h := (upsert_frame [exampleRow] exampleItem (some "c2") 1
            ⟨exampleRow, List.mem_singleton_self _, rfl⟩).1
          rw [h]
          decide⟩).embedding_hash = some "c"
      ∧ ((upsert_item [exampleRow] exampleItem (some "c2") 1).get ⟨0, by
          have h := (upsert_frame [exampleRow] exampleItem (some "c2") 1
            ⟨exampleRow, List.mem_singleton_self _, rfl⟩).1
          rw [h]
          decide⟩).title = "t2"
      ∧ ((upsert_item [exampleRow] exampleItem (some "c2") 1).get ⟨0, by
          have h := (upsert_frame [exampleRow] exampleItem (some "c2") 1
            ⟨exampleRow, List.mem_singleton_self _, rfl⟩).1
          rw [h]
          decide⟩).content_hash = some "c2" := by
  have h := (upsert_frame [exampleRow] exampleItem (some "c2") 1
    ⟨exampleRow, List.mem_singleton_self _, rfl⟩).2 0 (by decide) (by
      have h1 := (upsert_frame [exampleRow] exampleItem (some "c2") 1
        ⟨exampleRow, List.mem_singleton_self _, rfl⟩).1
      rw [h1]
      decide)
  have hc := h.1 rfl
  exact ⟨hc.2.2.2.2.2.2.2.2.2.2.2.1, hc.2.2.2.2.2.2.2.2.2.2.2.2, hc.2.1,
    hc.2.2.2.2.2.2.2.2.2.2.1⟩

/-- Counterexample for C6: `set_embedding` also rewrites the row's
`updated_at` column (`updated_at=CURRENT_TIMESTAMP` in the UPDATE), so
"never changes any other attribute of the item row" fails: the keyed row's
`updated_at` flips from 0 to 5 here. -/
theorem set_embedding_updated_at_counterexample :
    (set_embedding [exampleRow] "K" [9] (some "c") 5).map ItemRow.updated_at
        ≠ [exampleRow].map ItemRow.updated_at
      ∧ (set_embedding [exampleRow] "K" [9] (some "c") 5).map ItemRow.key
        = [exampleRow].map ItemRow.key :=
  ⟨by decide, by decide⟩

/-- C6 (amended).  `set_embedding(key, vector, embedding_hash)` updates
exactly the embedding fields and the `updated_at` timestamp of that key's
row; every other attribute of the row is unchanged, and rows with other
keys are completely unchanged. -/
theorem set_embedding_frame (db : ItemTable) (k : String) (v : List Nat)
    (h : Option String) (t : Nat) :
    (set_embedding db k v h t).length = db.length
      ∧ ∀ (j : Nat) (hj : j < db.length) (hj2 : j < (set_embedding db k v h t).length),
          (db[j].key = k →
              (set_embedding db k v h t)[j].embedding = some v
            ∧ (set_embedding db k v h t)[j].embedding_hash = h
            ∧ (set_embedding db k v h t)[j].updated_at = t
            ∧ (set_embedding db k v h t)[j].key = db[j].key
            ∧ (set_embedding db k v h t)[j].version = db[j].version
            ∧ (set_embedding db k v h t)[j].title = db[j].title
            ∧ (set_embedding db k v h t)[j].abstract = db[j].abstract
            ∧ (set_embedding db k v h t)[j].creators = db[j].creators
            ∧ (set_embedding db k v h t)[j].tags = db[j].tags
            ∧ (set_embedding db k v h t)[j].collections = db[j].collections
            ∧ (set_embedding db k v h t)[j].year = db[j].year
            ∧ (set_embedding db k v h t)[j].doi = db[j].doi
            ∧ (set_embedding db k v h t)[j].url = db[j].url
            ∧ (set_embedding db k v h t)[j].raw_json = db[j].raw_json
            ∧ (set_embedding db k v h t)[j].content_hash = db[j].content_hash)
          ∧ (db[j].key ≠ k → (set_embedding db k v h t)[j] = db[j]) := by
  constructor
  · simp [set_embedding]
  · intro j hj hj2
    constructor
    · intro hk
      simp [set_embedding, hk]
    · intro hk
      have hbeq : (db[j].key == k) = false := by simpa using hk
      simp [set_embedding, hbeq]
      exact fun hkk => absurd hkk hk

/-- Witness for C6 (amended): storing an embedding for `exampleRow`'s key
sets the embedding fields and leaves the content hash in place. -/
theorem set_embedding_frame_witness :
    ((set_embedding [exampleRow] "K" [9] (some "h2") 5).get ⟨0, by
        have h := (set_embedding_frame [exampleRow] "K" [9] (some "h2") 5).1
        rw [h]
        decide⟩).embedding = some [9]
      ∧ ((set_embedding [exampleRow] "K" [9] (some "h2") 5).get ⟨0, by
          have h := (set_embedding_frame [exampleRow] "K" [9] (some "h2") 5).1
          rw [h]
          decide⟩).content_hash = some "c" := by
  have h := (set_embedding_frame [exampleRow] "K" [9] (some "h2") 5).2 0 (by decide)
    (by
      have h1 := (set_embedding_frame [exampleRow] "K" [9] (some "h2") 5).1
      rw [h1]
      decide)
  have hc := h.1 rfl
  exact ⟨hc.1, hc.2.2.2.2.2.2.2.2.2.2.2.2.2.2⟩

end ZotWatch
